import Mathlib

/-!
Shallow embedding of the Rose repository (rendezvous server `nodemaster` and
gossip bridge `sidecar`), together with theorems settling the frozen claims
about its specification.

Conventions of the embedding:
* Rust `HashMap` values are modelled as association lists with unique keys
  (`lookupA` / `insertA` / `eraseA`); `insertA` replaces the binding of an
  existing key, matching `HashMap::insert` and `entry(..).or_insert(..)`.
* `usize` counters are modelled as `Nat`; Rust's `saturating_sub(1)` coincides
  with truncated subtraction on `Nat`.
* IP addresses, channel handles and task handles are opaque and modelled as
  `Nat`; identities and tickets are `String`, as in the source.
* Channel sends are modelled as emitted `(recipient, message)` pairs collected
  in an output list; one pair is emitted per `sender.send(..)` call.
-/

namespace Rose

/-! ## Association lists (model of Rust HashMap) -/

def lookupA {α β : Type} [DecidableEq α] : List (α × β) → α → Option β
  | [], _ => none
  | (k, v) :: rest, a => if k = a then some v else lookupA rest a

def insertA {α β : Type} [DecidableEq α] : List (α × β) → α → β → List (α × β)
  | [], a, b => [(a, b)]
  | (k, v) :: rest, a, b =>
      if k = a then (a, b) :: rest else (k, v) :: insertA rest a b

def eraseA {α β : Type} [DecidableEq α] : List (α × β) → α → List (α × β)
  | [], _ => []
  | (k, v) :: rest, a => if k = a then rest else (k, v) :: eraseA rest a

def keysA {α β : Type} (l : List (α × β)) : List α := l.map Prod.fst

theorem lookupA_insertA_self {α β : Type} [DecidableEq α]
    (l : List (α × β)) (a : α) (b : β) : lookupA (insertA l a b) a = some b := by
  induction l with
  | nil => simp [insertA, lookupA]
  | cons p rest ih =>
      obtain ⟨k, v⟩ := p
      by_cases hk : k = a
      · simp [insertA, lookupA, hk]
      · simp [insertA, lookupA, hk, ih]

theorem lookupA_insertA_ne {α β : Type} [DecidableEq α]
    (l : List (α × β)) (a c : α) (b : β) (h : a ≠ c) :
    lookupA (insertA l a b) c = lookupA l c := by
  induction l with
  | nil => simp [insertA, lookupA, h]
  | cons p rest ih =>
      obtain ⟨k, v⟩ := p
      by_cases hk : k = a
      · subst hk
        simp [insertA, lookupA, h]
      · simp [insertA, lookupA, hk, ih]

theorem lookupA_eraseA_ne {α β : Type} [DecidableEq α]
    (l : List (α × β)) (a c : α) (h : a ≠ c) :
    lookupA (eraseA l a) c = lookupA l c := by
  induction l with
  | nil => simp [eraseA]
  | cons p rest ih =>
      obtain ⟨k, v⟩ := p
      by_cases hk : k = a
      · subst hk
        simp [eraseA, lookupA, h]
      · simp [eraseA, lookupA, hk, ih]

theorem mem_of_lookupA {α β : Type} [DecidableEq α]
    {l : List (α × β)} {a : α} {b : β} (h : lookupA l a = some b) : (a, b) ∈ l := by
  induction l with
  | nil => simp [lookupA] at h
  | cons p rest ih =>
      obtain ⟨k, v⟩ := p
      by_cases hk : k = a
      · subst hk
        simp [lookupA] at h
        simp [h]
      · simp [lookupA, hk] at h
        exact List.mem_cons_of_mem _ (ih h)

theorem mem_insertA {α β : Type} [DecidableEq α]
    {l : List (α × β)} {a : α} {b : β} {p : α × β} (h : p ∈ insertA l a b) :
    p = (a, b) ∨ p ∈ l := by
  induction l with
  | nil => simpa [insertA] using h
  | cons q rest ih =>
      obtain ⟨k, v⟩ := q
      by_cases hk : k = a
      · simp [insertA, hk] at h
        rcases h with h | h
        · exact Or.inl h
        · exact Or.inr (List.mem_cons_of_mem _ h)
      · simp [insertA, hk] at h
        rcases h with h | h
        · exact Or.inr (by simp [h])
        · rcases ih h with h2 | h2
          · exact Or.inl h2
          · exact Or.inr (List.mem_cons_of_mem _ h2)

theorem mem_eraseA {α β : Type} [DecidableEq α]
    {l : List (α × β)} {a : α} {p : α × β} (h : p ∈ eraseA l a) : p ∈ l := by
  induction l with
  | nil => simp [eraseA] at h
  | cons q rest ih =>
      obtain ⟨k, v⟩ := q
      by_cases hk : k = a
      · simp [eraseA, hk] at h
        exact List.mem_cons_of_mem _ h
      · simp [eraseA, hk] at h
        rcases h with h | h
        · simp [h]
        · exact List.mem_cons_of_mem _ (ih h)

theorem keysA_nil {α β : Type} : keysA ([] : List (α × β)) = [] := rfl

theorem keysA_cons {α β : Type} (k : α) (v : β) (rest : List (α × β)) :
    keysA ((k, v) :: rest) = k :: keysA rest := rfl

theorem lookupA_eq_none_of_not_mem_keysA {α β : Type} [DecidableEq α]
    {l : List (α × β)} {a : α} (h : a ∉ keysA l) : lookupA l a = none := by
  induction l with
  | nil => simp [lookupA]
  | cons p rest ih =>
      obtain ⟨k, v⟩ := p
      rw [keysA_cons] at h
      simp at h
      simp [lookupA, Ne.symm h.1]
      exact ih h.2

theorem mem_keysA_insertA {α β : Type} [DecidableEq α]
    (l : List (α × β)) (a c : α) (b : β) :
    c ∈ keysA (insertA l a b) ↔ c = a ∨ c ∈ keysA l := by
  induction l with
  | nil => simp [insertA, keysA]
  | cons p rest ih =>
      obtain ⟨k, v⟩ := p
      by_cases hk : k = a
      · subst hk
        have he : insertA ((k, v) :: rest) k b = (k, b) :: rest := by
          simp [insertA]
        rw [he, keysA_cons, keysA_cons]
        simp
      · simp only [insertA, if_neg hk, keysA_cons, List.mem_cons] at ih ⊢
        tauto

theorem keysA_insertA_nodup {α β : Type} [DecidableEq α]
    {l : List (α × β)} (a : α) (b : β) (h : (keysA l).Nodup) :
    (keysA (insertA l a b)).Nodup := by
  induction l with
  | nil => simp [insertA, keysA]
  | cons p rest ih =>
      obtain ⟨k, v⟩ := p
      rw [keysA_cons, List.nodup_cons] at h
      by_cases hk : k = a
      · subst hk
        have he : insertA ((k, v) :: rest) k b = (k, b) :: rest := by
          simp [insertA]
        rw [he, keysA_cons, List.nodup_cons]
        exact h
      · simp only [insertA, if_neg hk, keysA_cons, List.nodup_cons]
        constructor
        · intro hc
          rcases (mem_keysA_insertA rest a k b).1 hc with h2 | h2
          · exact hk h2
          · exact h.1 h2
        · exact ih h.2

theorem keysA_eraseA_sublist {α β : Type} [DecidableEq α]
    (l : List (α × β)) (a : α) :
    List.Sublist (keysA (eraseA l a)) (keysA l) := by
  induction l with
  | nil => simp [eraseA, keysA]
  | cons p rest ih =>
      obtain ⟨k, v⟩ := p
      by_cases hk : k = a
      · simp only [eraseA, if_pos hk, keysA_cons]
        exact List.sublist_cons_self _ _
      · simp only [eraseA, if_neg hk, keysA_cons]
        exact List.Sublist.cons₂ _ ih

theorem keysA_eraseA_nodup {α β : Type} [DecidableEq α]
    {l : List (α × β)} (a : α) (h : (keysA l).Nodup) :
    (keysA (eraseA l a)).Nodup :=
  h.sublist (keysA_eraseA_sublist l a)

theorem not_mem_keysA_eraseA {α β : Type} [DecidableEq α]
    {l : List (α × β)} {a : α} (h : (keysA l).Nodup) :
    a ∉ keysA (eraseA l a) := by
  induction l with
  | nil => simp [eraseA, keysA]
  | cons p rest ih =>
      obtain ⟨k, v⟩ := p
      rw [keysA_cons, List.nodup_cons] at h
      by_cases hk : k = a
      · subst hk
        have he : eraseA ((k, v) :: rest) k = rest := by
          simp [eraseA]
        rw [he]
        exact h.1
      · simp only [eraseA, if_neg hk, keysA_cons, List.mem_cons]
        rintro (hc | hc)
        · exact hk hc.symm
        · exact ih h.2 hc

theorem lookupA_eraseA_self {α β : Type} [DecidableEq α]
    {l : List (α × β)} {a : α} (h : (keysA l).Nodup) :
    lookupA (eraseA l a) a = none :=
  lookupA_eq_none_of_not_mem_keysA (not_mem_keysA_eraseA h)

theorem insertA_ne_nil {α β : Type} [DecidableEq α]
    (l : List (α × β)) (a : α) (b : β) : insertA l a b ≠ [] := by
  cases l with
  | nil => simp [insertA]
  | cons p rest =>
      obtain ⟨k, v⟩ := p
      by_cases hk : k = a <;> simp [insertA, hk]

theorem count_map_pair_eq {α β γ : Type} [DecidableEq α] [DecidableEq γ]
    (l : List (α × β)) (msg : γ) (a : α) :
    (l.map (fun p => (p.1, msg))).count (a, msg) = (keysA l).count a := by
  induction l with
  | nil => simp [keysA]
  | cons p rest ih =>
      obtain ⟨k, v⟩ := p
      rw [keysA_cons]
      by_cases hk : k = a
      · subst hk
        simp [List.count_cons, ih]
      · simp [List.count_cons, ih, Prod.ext_iff, hk]

theorem count_map_pair_ne {α β γ : Type} [DecidableEq α] [DecidableEq γ]
    (l : List (α × β)) {msg msg2 : γ} (a : α) (h : msg ≠ msg2) :
    (l.map (fun p => (p.1, msg))).count (a, msg2) = 0 := by
  induction l with
  | nil => simp
  | cons p rest ih =>
      obtain ⟨k, v⟩ := p
      simp [List.count_cons, Prod.ext_iff, ih, h]

/-! ## ConnectionLimiter (nodemaster/src/connection_limiter.rs)

The Rust struct is `Arc<Mutex<ConnectionLimiterInner>>`; we model the inner
state directly, since each operation runs under the single mutex. -/

def MAX_TOTAL_CONNECTIONS : Nat := 1000

def MAX_PER_IP : Nat := 5

inductive LimitError where
  | TotalLimitReached
  | IpLimitReached
deriving DecidableEq, Repr

structure ConnectionLimiter where
  connections_per_ip : List (Nat × Nat)
  total_connections : Nat
deriving DecidableEq, Repr

def ConnectionLimiter.new : ConnectionLimiter :=
  { connections_per_ip := [], total_connections := 0 }

def ConnectionLimiter.try_connect (l : ConnectionLimiter) (ip : Nat) :
    Except LimitError ConnectionLimiter :=
  if l.total_connections ≥ MAX_TOTAL_CONNECTIONS then
    .error .TotalLimitReached
  else
    let ip_count := (lookupA l.connections_per_ip ip).getD 0
    if ip_count ≥ MAX_PER_IP then
      .error .IpLimitReached
    else
      .ok { connections_per_ip := insertA l.connections_per_ip ip (ip_count + 1),
            total_connections := l.total_connections + 1 }

def ConnectionLimiter.disconnect (l : ConnectionLimiter) (ip : Nat) :
    ConnectionLimiter :=
  let total := l.total_connections - 1
  match lookupA l.connections_per_ip ip with
  | none => { l with total_connections := total }
  | some count =>
      let count := count - 1
      if count = 0 then
        { connections_per_ip := eraseA l.connections_per_ip ip,
          total_connections := total }
      else
        { connections_per_ip := insertA l.connections_per_ip ip count,
          total_connections := total }

inductive LimiterOp where
  | tryConnect (ip : Nat)
  | disconnect (ip : Nat)
deriving DecidableEq, Repr

/-- One client-visible step: a rejected `try_connect` leaves the state as it
was (the mutex guard is dropped without mutation). -/
def applyLimiterOp (l : ConnectionLimiter) : LimiterOp → ConnectionLimiter
  | .tryConnect ip =>
      match l.try_connect ip with
      | .ok l2 => l2
      | .error _ => l
  | .disconnect ip => l.disconnect ip

def runLimiterOps (ops : List LimiterOp) (l : ConnectionLimiter) : ConnectionLimiter :=
  ops.foldl applyLimiterOp l

def LimiterInv (l : ConnectionLimiter) : Prop :=
  l.total_connections ≤ MAX_TOTAL_CONNECTIONS ∧
  ∀ p ∈ l.connections_per_ip, p.2 ≤ MAX_PER_IP

theorem limiterInv_apply {l : ConnectionLimiter} (hInv : LimiterInv l)
    (op : LimiterOp) : LimiterInv (applyLimiterOp l op) := by
  obtain ⟨htot, hip⟩ := hInv
  cases op with
  | tryConnect ip =>
      by_cases h1 : l.total_connections ≥ MAX_TOTAL_CONNECTIONS
      · simp [applyLimiterOp, ConnectionLimiter.try_connect, h1]
        exact ⟨htot, hip⟩
      · by_cases h2 : (lookupA l.connections_per_ip ip).getD 0 ≥ MAX_PER_IP
        · simp [applyLimiterOp, ConnectionLimiter.try_connect, h1, h2]
          exact ⟨htot, hip⟩
        · simp [applyLimiterOp, ConnectionLimiter.try_connect, h1, h2]
          constructor
          · dsimp only
            omega
          · intro p hp
            rcases mem_insertA hp with hp2 | hp2
            · subst hp2
              simp
              omega
            · exact hip p hp2
  | disconnect ip =>
      cases hl : lookupA l.connections_per_ip ip with
      | none =>
          simp [applyLimiterOp, ConnectionLimiter.disconnect, hl]
          constructor
          · dsimp only
            omega
          · exact hip
      | some count =>
          by_cases hz : count - 1 = 0
          · simp [applyLimiterOp, ConnectionLimiter.disconnect, hl, hz]
            constructor
            · dsimp only
              omega
            · intro p hp
              exact hip p (mem_eraseA hp)
          · simp [applyLimiterOp, ConnectionLimiter.disconnect, hl, hz]
            constructor
            · dsimp only
              omega
            · intro p hp
              rcases mem_insertA hp with hp2 | hp2
              · subst hp2
                have := hip (ip, count) (mem_of_lookupA hl)
                simp at this ⊢
                omega
              · exact hip p hp2

theorem limiterInv_run (ops : List LimiterOp) {l : ConnectionLimiter}
    (hInv : LimiterInv l) : LimiterInv (runLimiterOps ops l) := by
  induction ops generalizing l with
  | nil => simp only [runLimiterOps, List.foldl_nil]
           exact hInv
  | cons op rest ih =>
      have h1 : LimiterInv (applyLimiterOp l op) := limiterInv_apply hInv op
      simpa [runLimiterOps, List.foldl_cons] using ih h1

theorem limiterInv_new : LimiterInv ConnectionLimiter.new := by
  constructor
  · simp [ConnectionLimiter.new, MAX_TOTAL_CONNECTIONS]
  · intro p hp
    simp [ConnectionLimiter.new] at hp

/-- Claim C7: starting from a fresh `ConnectionLimiter`, after any sequence of
`try_connect`/`disconnect` calls the global counter is at most the total
ceiling (1000) and every per-IP counter is at most the per-IP ceiling (5)
(non-negativity is structural: the counters are `usize`/`Nat` and decrements
saturate); moreover `try_connect` rejects with `TotalLimitReached` when the
global counter is at the total ceiling, and with `IpLimitReached` when the
calling IP's counter is at the per-IP ceiling, instead of exceeding either. -/
theorem claim7_limiter_never_exceeds_ceilings :
    (∀ (ops : List LimiterOp) (ip : Nat),
        (runLimiterOps ops ConnectionLimiter.new).total_connections ≤ MAX_TOTAL_CONNECTIONS ∧
        (lookupA (runLimiterOps ops ConnectionLimiter.new).connections_per_ip ip).getD 0
          ≤ MAX_PER_IP) ∧
    (∀ (l : ConnectionLimiter) (ip : Nat),
        l.total_connections ≥ MAX_TOTAL_CONNECTIONS →
        l.try_connect ip = .error .TotalLimitReached) ∧
    (∀ (l : ConnectionLimiter) (ip : Nat),
        l.total_connections < MAX_TOTAL_CONNECTIONS →
        (lookupA l.connections_per_ip ip).getD 0 ≥ MAX_PER_IP →
        l.try_connect ip = .error .IpLimitReached) := by
  refine ⟨?_, ?_, ?_⟩
  · intro ops ip
    have hInv := limiterInv_run ops limiterInv_new
    obtain ⟨htot, hip⟩ := hInv
    refine ⟨htot, ?_⟩
    cases hl : lookupA (runLimiterOps ops ConnectionLimiter.new).connections_per_ip ip with
    | none => simp [MAX_PER_IP]
    | some c =>
        have := hip (ip, c) (mem_of_lookupA hl)
        simpa using this
  · intro l ip h
    simp [ConnectionLimiter.try_connect, h]
  · intro l ip h1 h2
    have h1' : ¬ l.total_connections ≥ MAX_TOTAL_CONNECTIONS := by omega
    simp [ConnectionLimiter.try_connect, h1', h2]

/-- Witness for C7 at concrete inputs. -/
theorem claim7_limiter_never_exceeds_ceilings_witness :
    ((runLimiterOps [.tryConnect 7, .tryConnect 7, .disconnect 7]
        ConnectionLimiter.new).total_connections ≤ MAX_TOTAL_CONNECTIONS ∧
      (lookupA (runLimiterOps [.tryConnect 7, .tryConnect 7, .disconnect 7]
        ConnectionLimiter.new).connections_per_ip 7).getD 0 ≤ MAX_PER_IP) ∧
    ConnectionLimiter.try_connect ⟨[], 1000⟩ 3 = .error .TotalLimitReached ∧
    ConnectionLimiter.try_connect ⟨[(3, 5)], 5⟩ 3 = .error .IpLimitReached :=
  ⟨claim7_limiter_never_exceeds_ceilings.1 [.tryConnect 7, .tryConnect 7, .disconnect 7] 7,
   claim7_limiter_never_exceeds_ceilings.2.1 ⟨[], 1000⟩ 3 (by decide),
   claim7_limiter_never_exceeds_ceilings.2.2 ⟨[(3, 5)], 5⟩ 3 (by decide) (by decide)⟩

/-- Claim C3 counterexample: in the reachable state with one connection from
IP 7, calling `disconnect` for IP 5 (which has no recorded connection) leaves
the per-IP map unchanged but drops the global counter from 1 to 0, so it is
not a no-op. -/
theorem claim3_counterexample_disconnect_not_noop :
    lookupA (runLimiterOps [.tryConnect 7] ConnectionLimiter.new).connections_per_ip 5
      = none ∧
    (runLimiterOps [.tryConnect 7] ConnectionLimiter.new).total_connections = 1 ∧
    ((runLimiterOps [.tryConnect 7] ConnectionLimiter.new).disconnect 5).connections_per_ip
      = (runLimiterOps [.tryConnect 7] ConnectionLimiter.new).connections_per_ip ∧
    ((runLimiterOps [.tryConnect 7] ConnectionLimiter.new).disconnect 5).total_connections
      = 0 := by
  decide

/-- Claim C3 (amended): for every `ConnectionLimiter` state and every IP with
no recorded connection, `disconnect(ip)` leaves the per-IP map unchanged but
still saturating-decrements the global counter by one; it is a full no-op only
when the global counter is already zero. -/
theorem claim3_disconnect_unknown_ip (l : ConnectionLimiter) (ip : Nat)
    (h : lookupA l.connections_per_ip ip = none) :
    l.disconnect ip = { l with total_connections := l.total_connections - 1 } := by
  simp [ConnectionLimiter.disconnect, h]

/-- Witness for the amended C3 at a concrete input. -/
theorem claim3_disconnect_unknown_ip_witness :
    ConnectionLimiter.disconnect ⟨[(7, 1)], 1⟩ 5 =
      { (⟨[(7, 1)], 1⟩ : ConnectionLimiter) with total_connections := 1 - 1 } :=
  claim3_disconnect_unknown_ip ⟨[(7, 1)], 1⟩ 5 (by decide)

/-! ## Rooms and the RoomManager (nodemaster/src/room.rs)

Member channels (`ClientSender`) are opaque handles modelled as `Nat`.
A send on a member's channel is modelled by emitting the pair
`(member key, message)` into an output list: the source iterates over
`self.members.values()` and performs one `member.sender.send(..)` per member
entry, so recipients are identified by their key in the member map. -/

namespace NodeMaster

/-- Server-to-client messages of the rendezvous wire protocol
(nodemaster/src/protocol.rs, `ServerMessage`). -/
inductive ServerMessage where
  | Peers (node_ids : List String)
  | PeerJoined (node_id : String)
  | PeerLeft (node_id : String)
  | Pong
  | Error (message : String)
deriving DecidableEq, Repr

structure RoomMember where
  sender : Nat
deriving DecidableEq, Repr

structure Room where
  members : List (String × RoomMember)
deriving DecidableEq, Repr

def Room.new : Room := { members := [] }

/-- `Room::add_member`: collect the existing peer ids, notify every current
member with `PeerJoined`, then insert the new member; returns
(updated room, existing peers, notifications sent). -/
def Room.add_member (r : Room) (node_id : String) (sender : Nat) :
    Room × List String × List (String × ServerMessage) :=
  let existing_peers := keysA r.members
  let notifications := r.members.map (fun p => (p.1, ServerMessage.PeerJoined node_id))
  ({ members := insertA r.members node_id { sender := sender } },
   existing_peers, notifications)

/-- `Room::remove_member`: remove the member, then notify the remaining
members with `PeerLeft`; returns (updated room, notifications sent). -/
def Room.remove_member (r : Room) (node_id : String) :
    Room × List (String × ServerMessage) :=
  let r2 : Room := { members := eraseA r.members node_id }
  (r2, r2.members.map (fun p => (p.1, ServerMessage.PeerLeft node_id)))

def Room.is_empty (r : Room) : Bool := r.members.isEmpty

/-- The `RoomManager` state: ticket-to-room map and the membership index.
The `Arc<RwLock<..>>` wrappers are dropped; each operation holds the locks for
its whole critical section. -/
structure RoomManager where
  rooms : List (String × Room)
  client_tickets : List (String × String)
deriving DecidableEq, Repr

def RoomManager.new : RoomManager := { rooms := [], client_tickets := [] }

/-- `RoomManager::leave`: remove the identity from the membership index; if it
held a ticket, remove it from that room, notify the remaining members, and
delete the room if it became empty. Returns (new state, notifications). -/
def RoomManager.leave (m : RoomManager) (node_id : String) :
    RoomManager × List (String × ServerMessage) :=
  match lookupA m.client_tickets node_id with
  | none => ({ m with client_tickets := eraseA m.client_tickets node_id }, [])
  | some ticket =>
      let ct := eraseA m.client_tickets node_id
      match lookupA m.rooms ticket with
      | none => ({ rooms := m.rooms, client_tickets := ct }, [])
      | some room =>
          let rm := room.remove_member node_id
          if rm.1.is_empty then
            ({ rooms := eraseA m.rooms ticket, client_tickets := ct }, rm.2)
          else
            ({ rooms := insertA m.rooms ticket rm.1, client_tickets := ct }, rm.2)

/-- First step of `RoomManager::register`: if the client already holds a
different ticket, leave that room first. -/
def registerStep1 (m : RoomManager) (ticket node_id : String) :
    RoomManager × List (String × ServerMessage) :=
  match lookupA m.client_tickets node_id with
  | some old_ticket => if old_ticket ≠ ticket then m.leave node_id else (m, [])
  | none => (m, [])

structure RegisterResult where
  state : RoomManager
  existing_peers : List String
  outbox : List (String × ServerMessage)
deriving DecidableEq, Repr

/-- `RoomManager::register`: implicit leave of a different previously-held
room, record `node_id -> ticket` in the membership index, then
`rooms.entry(ticket).or_insert_with(Room::new)` and `Room::add_member`. -/
def RoomManager.register (m : RoomManager) (ticket node_id : String) (sender : Nat) :
    RegisterResult :=
  let s1 := registerStep1 m ticket node_id
  let m2 : RoomManager :=
    { s1.1 with client_tickets := insertA s1.1.client_tickets node_id ticket }
  let room := (lookupA m2.rooms ticket).getD Room.new
  let am := room.add_member node_id sender
  { state := { m2 with rooms := insertA m2.rooms ticket am.1 },
    existing_peers := am.2.1,
    outbox := s1.2 ++ am.2.2 }

/-- Identities that are members of the room held under `ticket` (empty when no
such room exists). -/
def roomMembersAt (m : RoomManager) (ticket : String) : List String :=
  keysA ((lookupA m.rooms ticket).getD Room.new).members

inductive RoomOp where
  | register (ticket node_id : String) (sender : Nat)
  | leave (node_id : String)
deriving DecidableEq, Repr

def applyRoomOp (m : RoomManager) : RoomOp → RoomManager
  | .register ticket node_id sender => (m.register ticket node_id sender).state
  | .leave node_id => (m.leave node_id).1

def runRoomOps (ops : List RoomOp) (m : RoomManager) : RoomManager :=
  ops.foldl applyRoomOp m

/-- A `leave` by a client holding a ticket different from `t` does not change
which room (if any) is stored under `t`. -/
theorem lookupA_rooms_leave_ne (m : RoomManager) (nid t old : String)
    (hct : lookupA m.client_tickets nid = some old) (hne : old ≠ t) :
    lookupA (m.leave nid).1.rooms t = lookupA m.rooms t := by
  cases hroom : lookupA m.rooms old with
  | none => simp [RoomManager.leave, hct, hroom]
  | some room =>
      by_cases he : (room.remove_member nid).1.is_empty
      · simp [RoomManager.leave, hct, hroom, he]
        exact lookupA_eraseA_ne m.rooms old t hne
      · simp [RoomManager.leave, hct, hroom, he]
        exact lookupA_insertA_ne m.rooms old t _ hne

/-- The implicit-leave step of `register` does not change which room is stored
under the ticket being registered to. -/
theorem lookupA_rooms_registerStep1 (m : RoomManager) (t nid : String) :
    lookupA (registerStep1 m t nid).1.rooms t = lookupA m.rooms t := by
  cases hct : lookupA m.client_tickets nid with
  | none => simp [registerStep1, hct]
  | some old =>
      by_cases hne : old ≠ t
      · simp only [registerStep1, hct, if_pos hne]
        exact lookupA_rooms_leave_ne m nid t old hct hne
      · simp [registerStep1, hct, hne]

/-- Claim C4 (amended): `register` returns exactly the identities that were
members of the ticket's room before the call; consequently the returned list
contains the registered identity exactly when that identity was already a
member of that same room before the call (rather than never). -/
theorem claim4_register_returns_prior_members
    (m : RoomManager) (t id : String) (sender : Nat) :
    (m.register t id sender).existing_peers = roomMembersAt m t ∧
    (id ∈ (m.register t id sender).existing_peers ↔ id ∈ roomMembersAt m t) := by
  have hmain : (m.register t id sender).existing_peers = roomMembersAt m t := by
    simp only [RoomManager.register, Room.add_member, roomMembersAt]
    rw [lookupA_rooms_registerStep1]
  exact ⟨hmain, by rw [hmain]⟩

/-- Claim C4 counterexample: registering identity A to ticket T when A is
already the sole member of T's room returns the peer list consisting of A
itself, so the returned list can contain the identity being registered. -/
theorem claim4_counterexample_self_in_returned_peers :
    "A" ∈ roomMembersAt (RoomManager.new.register "T" "A" 0).state "T" ∧
    ((RoomManager.new.register "T" "A" 0).state.register "T" "A" 0).existing_peers
      = ["A"] := by
  decide

/-- No room stored in the directory has an empty member map. -/
def NoEmptyRooms (m : RoomManager) : Prop :=
  ∀ p ∈ m.rooms, p.2.members ≠ []

theorem noEmptyRooms_leave {m : RoomManager} (h : NoEmptyRooms m)
    (nid : String) : NoEmptyRooms (m.leave nid).1 := by
  cases hct : lookupA m.client_tickets nid with
  | none =>
      simp only [RoomManager.leave, hct]
      exact h
  | some ticket =>
      cases hroom : lookupA m.rooms ticket with
      | none =>
          simp only [RoomManager.leave, hct, hroom]
          exact h
      | some room =>
          by_cases he : (room.remove_member nid).1.is_empty
          · simp only [RoomManager.leave, hct, hroom, if_pos he]
            intro p hp
            exact h p (mem_eraseA hp)
          · simp only [RoomManager.leave, hct, hroom, if_neg he]
            intro p hp
            rcases mem_insertA hp with hp2 | hp2
            · subst hp2
              simpa [Room.is_empty, List.isEmpty_iff] using he
            · exact h p hp2

theorem noEmptyRooms_registerStep1 {m : RoomManager} (h : NoEmptyRooms m)
    (t nid : String) : NoEmptyRooms (registerStep1 m t nid).1 := by
  cases hct : lookupA m.client_tickets nid with
  | none =>
      simp only [registerStep1, hct]
      exact h
  | some old =>
      by_cases hne : old ≠ t
      · simp only [registerStep1, hct, if_pos hne]
        exact noEmptyRooms_leave h nid
      · simp only [registerStep1, hct, if_neg hne]
        exact h

theorem noEmptyRooms_register {m : RoomManager} (h : NoEmptyRooms m)
    (t nid : String) (sender : Nat) :
    NoEmptyRooms (m.register t nid sender).state := by
  have h1 := noEmptyRooms_registerStep1 h t nid
  simp only [RoomManager.register, Room.add_member]
  intro p hp
  rcases mem_insertA hp with hp2 | hp2
  · subst hp2
    exact insertA_ne_nil _ _ _
  · exact h1 p hp2

theorem noEmptyRooms_apply {m : RoomManager} (h : NoEmptyRooms m)
    (op : RoomOp) : NoEmptyRooms (applyRoomOp m op) := by
  cases op with
  | register t nid sender => exact noEmptyRooms_register h t nid sender
  | leave nid => exact noEmptyRooms_leave h nid

theorem noEmptyRooms_run (ops : List RoomOp) {m : RoomManager}
    (h : NoEmptyRooms m) : NoEmptyRooms (runRoomOps ops m) := by
  induction ops generalizing m with
  | nil =>
      simp only [runRoomOps, List.foldl_nil]
      exact h
  | cons op rest ih =>
      have h1 := noEmptyRooms_apply h op
      simpa [runRoomOps, List.foldl_cons] using ih h1

/-- Claim C9: after any sequence of `register`/`leave` operations starting
from a fresh directory, no stored room has an empty member map (an empty room
is deleted as soon as it becomes empty); in particular, after
`register(T, A, tx)` on a fresh directory immediately followed by
`leave(A)`, no room is stored under T. -/
theorem claim9_no_empty_room_persists :
    (∀ (ops : List RoomOp) (p : String × Room),
        p ∈ (runRoomOps ops RoomManager.new).rooms → p.2.members ≠ []) ∧
    lookupA ((RoomManager.new.register "T" "A" 0).state.leave "A").1.rooms "T"
      = none := by
  constructor
  · intro ops p hp
    have hn : NoEmptyRooms RoomManager.new := by
      intro q hq
      simp [RoomManager.new] at hq
    exact noEmptyRooms_run ops hn p hp
  · decide

/-- Witness for C9 at concrete inputs: the single room in the directory
reached by one register operation is non-empty. -/
theorem claim9_no_empty_room_persists_witness :
    (("T", ({ members := [("A", { sender := 5 })] } : Room)) :
        String × Room).2.members ≠ [] :=
  claim9_no_empty_room_persists.1 [.register "T" "A" 5]
    ("T", { members := [("A", { sender := 5 })] }) (by decide)

/-- Well-formedness maintained by the Rust `HashMap`s: the room map has
duplicate-free ticket keys and every room has duplicate-free member keys. -/
def RoomsWF (m : RoomManager) : Prop :=
  (keysA m.rooms).Nodup ∧ ∀ p ∈ m.rooms, (keysA p.2.members).Nodup

instance (m : RoomManager) : Decidable (RoomsWF m) := by
  unfold RoomsWF
  infer_instance

theorem roomsWF_leave {m : RoomManager} (h : RoomsWF m) (nid : String) :
    RoomsWF (m.leave nid).1 := by
  cases hct : lookupA m.client_tickets nid with
  | none =>
      simp only [RoomManager.leave, hct]
      exact h
  | some ticket =>
      cases hroom : lookupA m.rooms ticket with
      | none =>
          simp only [RoomManager.leave, hct, hroom]
          exact h
      | some room =>
          by_cases he : (room.remove_member nid).1.is_empty
          · simp only [RoomManager.leave, hct, hroom, if_pos he]
            exact ⟨keysA_eraseA_nodup _ h.1, fun p hp => h.2 p (mem_eraseA hp)⟩
          · simp only [RoomManager.leave, hct, hroom, if_neg he]
            refine ⟨keysA_insertA_nodup _ _ h.1, fun p hp => ?_⟩
            rcases mem_insertA hp with hp2 | hp2
            · subst hp2
              simp only [Room.remove_member]
              exact keysA_eraseA_nodup _ (h.2 (ticket, room) (mem_of_lookupA hroom))
            · exact h.2 p hp2

theorem roomsWF_registerStep1 {m : RoomManager} (h : RoomsWF m)
    (t nid : String) : RoomsWF (registerStep1 m t nid).1 := by
  cases hct : lookupA m.client_tickets nid with
  | none =>
      simp only [registerStep1, hct]
      exact h
  | some old =>
      by_cases hne : old ≠ t
      · simp only [registerStep1, hct, if_pos hne]
        exact roomsWF_leave h nid
      · simp only [registerStep1, hct, if_neg hne]
        exact h

theorem roomsWF_register {m : RoomManager} (h : RoomsWF m)
    (t nid : String) (sender : Nat) :
    RoomsWF (m.register t nid sender).state := by
  have h1 := roomsWF_registerStep1 h t nid
  simp only [RoomManager.register, Room.add_member]
  refine ⟨keysA_insertA_nodup _ _ h1.1, fun p hp => ?_⟩
  rcases mem_insertA hp with hp2 | hp2
  · subst hp2
    refine keysA_insertA_nodup _ _ ?_
    cases hr : lookupA (registerStep1 m t nid).1.rooms t with
    | none => simp [Room.new, keysA]
    | some r => simpa using h1.2 (t, r) (mem_of_lookupA hr)
  · exact h1.2 p hp2

/-- Claim C8: from a well-formed directory, registering identity id to T1 and
then to a different ticket T2 leaves id a member of T2's room only — the
membership index maps id to T2, id is in T2's room and not in T1's room — and
the second registration delivers exactly one `PeerLeft(id)` notification to
each remaining member of T1's room. -/
theorem claim8_reregister_single_membership
    (m : RoomManager) (T1 T2 id : String) (sA sB : Nat)
    (hwf : RoomsWF m) (hne : T1 ≠ T2) :
    lookupA ((m.register T1 id sA).state.register T2 id sB).state.client_tickets id
      = some T2 ∧
    id ∈ roomMembersAt ((m.register T1 id sA).state.register T2 id sB).state T2 ∧
    id ∉ roomMembersAt ((m.register T1 id sA).state.register T2 id sB).state T1 ∧
    ∀ nid ∈ roomMembersAt ((m.register T1 id sA).state.register T2 id sB).state T1,
      ((m.register T1 id sA).state.register T2 id sB).outbox.count
        (nid, ServerMessage.PeerLeft id) = 1 := by
  have hwf1 : RoomsWF (m.register T1 id sA).state := roomsWF_register hwf T1 id sA
  have hct1 : lookupA (m.register T1 id sA).state.client_tickets id = some T1 := by
    simp only [RoomManager.register]
    exact lookupA_insertA_self _ _ _
  have hroom1 : lookupA (m.register T1 id sA).state.rooms T1 = some
      { members := insertA ((lookupA (registerStep1 m T1 id).1.rooms T1).getD
          Room.new).members id { sender := sA } } := by
    simp only [RoomManager.register, Room.add_member]
    exact lookupA_insertA_self _ _ _
  set s1 := (m.register T1 id sA).state with hs1def
  set mem1 := insertA ((lookupA (registerStep1 m T1 id).1.rooms T1).getD
      Room.new).members id { sender := sA } with hmem1def
  have hmem1_nodup : (keysA mem1).Nodup :=
    hwf1.2 (T1, { members := mem1 }) (mem_of_lookupA hroom1)
  have hstep2 : registerStep1 s1 T2 id = s1.leave id := by
    simp [registerStep1, hct1, hne]
  by_cases hemp : eraseA mem1 id = []
  · -- T1's room becomes empty on the implicit leave and is deleted.
    have hlv : s1.leave id =
        ({ rooms := eraseA s1.rooms T1,
           client_tickets := eraseA s1.client_tickets id }, []) := by
      simp [RoomManager.leave, hct1, hroom1, Room.remove_member, Room.is_empty,
        hemp]
    have hT1 : lookupA ((s1.register T2 id sB).state).rooms T1 = none := by
      simp only [RoomManager.register, Room.add_member, hstep2, hlv]
      rw [lookupA_insertA_ne _ _ _ _ (Ne.symm hne)]
      exact lookupA_eraseA_self hwf1.1
    refine ⟨?_, ?_, ?_, ?_⟩
    · simp only [RoomManager.register, hstep2, hlv]
      exact lookupA_insertA_self _ _ _
    · simp only [roomMembersAt, RoomManager.register, Room.add_member, hstep2, hlv]
      rw [lookupA_insertA_self]
      exact (mem_keysA_insertA _ _ _ _).2 (Or.inl rfl)
    · simp only [roomMembersAt, hT1]
      simp [Room.new, keysA]
    · intro nid hnid
      simp only [roomMembersAt, hT1] at hnid
      simp [Room.new, keysA] at hnid
  · -- T1's room keeps its other members; they are each notified once.
    have hlv : s1.leave id =
        ({ rooms := insertA s1.rooms T1 { members := eraseA mem1 id },
           client_tickets := eraseA s1.client_tickets id },
         (eraseA mem1 id).map (fun p => (p.1, ServerMessage.PeerLeft id))) := by
      simp [RoomManager.leave, hct1, hroom1, Room.remove_member, Room.is_empty,
        List.isEmpty_iff, hemp]
    have hT1 : lookupA ((s1.register T2 id sB).state).rooms T1 =
        some { members := eraseA mem1 id } := by
      simp only [RoomManager.register, Room.add_member, hstep2, hlv]
      rw [lookupA_insertA_ne _ _ _ _ (Ne.symm hne)]
      exact lookupA_insertA_self _ _ _
    refine ⟨?_, ?_, ?_, ?_⟩
    · simp only [RoomManager.register, hstep2, hlv]
      exact lookupA_insertA_self _ _ _
    · simp only [roomMembersAt, RoomManager.register, Room.add_member, hstep2, hlv]
      rw [lookupA_insertA_self]
      exact (mem_keysA_insertA _ _ _ _).2 (Or.inl rfl)
    · simp only [roomMembersAt, hT1]
      exact not_mem_keysA_eraseA hmem1_nodup
    · intro nid hnid
      simp only [roomMembersAt, hT1] at hnid
      simp only [Option.getD_some] at hnid
      have hout : (s1.register T2 id sB).outbox =
          (eraseA mem1 id).map (fun p => (p.1, ServerMessage.PeerLeft id)) ++
          ((lookupA (s1.leave id).1.rooms T2).getD Room.new).members.map
            (fun p => (p.1, ServerMessage.PeerJoined id)) := by
        simp only [RoomManager.register, Room.add_member, hstep2, hlv]
      rw [hout, List.count_append]
      rw [count_map_pair_eq, count_map_pair_ne]
      · have h1 : (keysA (eraseA mem1 id)).count nid = 1 :=
          List.count_eq_one_of_mem (keysA_eraseA_nodup _ hmem1_nodup) hnid
        omega
      · intro hcon
        cases hcon

/-- Witness for C8 at concrete inputs: B occupies room t1, A registers to t1
and then to t2. -/
theorem claim8_reregister_single_membership_witness :
    lookupA (((RoomManager.new.register "t1" "B" 0).state.register "t1" "A" 1).state.register
        "t2" "A" 2).state.client_tickets "A" = some "t2" ∧
    "A" ∈ roomMembersAt (((RoomManager.new.register "t1" "B" 0).state.register "t1" "A"
        1).state.register "t2" "A" 2).state "t2" ∧
    "A" ∉ roomMembersAt (((RoomManager.new.register "t1" "B" 0).state.register "t1" "A"
        1).state.register "t2" "A" 2).state "t1" ∧
    ∀ nid ∈ roomMembersAt (((RoomManager.new.register "t1" "B" 0).state.register "t1" "A"
        1).state.register "t2" "A" 2).state "t1",
      (((RoomManager.new.register "t1" "B" 0).state.register "t1" "A" 1).state.register
          "t2" "A" 2).outbox.count (nid, ServerMessage.PeerLeft "A") = 1 :=
  claim8_reregister_single_membership
    (RoomManager.new.register "t1" "B" 0).state "t1" "t2" "A" 1 2
    (by decide) (by decide)

end NodeMaster

namespace Sidecar

/-! ## Ticket decoding (sidecar/src/server.rs, `decode_ticket`)

Tickets are modelled as `List Char` (Rust `&str`) and byte strings as
`List Nat`. -/

/-- Value of a single hexadecimal digit, upper or lower case (model of the
per-character behaviour of the `hex` crate). -/
def hexDigit (c : Char) : Option Nat :=
  if '0' ≤ c ∧ c ≤ '9' then some (c.toNat - '0'.toNat)
  else if 'a' ≤ c ∧ c ≤ 'f' then some (c.toNat - 'a'.toNat + 10)
  else if 'A' ≤ c ∧ c ≤ 'F' then some (c.toNat - 'A'.toNat + 10)
  else none

/-- Model of `hex::decode`: consumes pairs of hex digits; fails on an odd
length or any non-hex character. -/
def hexDecode : List Char → Option (List Nat)
  | [] => some []
  | [_] => none
  | c1 :: c2 :: rest => do
      let hi ← hexDigit c1
      let lo ← hexDigit c2
      let bs ← hexDecode rest
      pure ((16 * hi + lo) :: bs)

/-- Model of `str::split_once`: split at the first occurrence of the
separator. -/
def split_once : List Char → Char → Option (List Char × List Char)
  | [], _ => none
  | c :: rest, sep =>
      if c = sep then some ([], rest)
      else
        match split_once rest sep with
        | some (l, r) => some (c :: l, r)
        | none => none

abbrev EndpointId := List Nat

/-- Modelled from the external iroh crate (not part of this repository):
`EndpointId::from_str` parses a 32-byte public key from its 64-character hex
encoding and rejects anything that does not decode to exactly 32 bytes. The
ed25519 point-validity check and the alternative base32 encoding are not
modelled; every identity string appearing in the theorems below is rejected
by the real parser for the same length reasons as here. -/
def EndpointId.from_str (s : List Char) : Option EndpointId :=
  match hexDecode s with
  | some bs => if bs.length = 32 then some bs else none
  | none => none

/-- `decode_ticket`: either `topic_hex|node_id` (the node id part is parsed
with `EndpointId::from_str(..).ok()`, so an unparseable id degrades to no
bootstrap peer) or a bare legacy `topic_hex`; the hex payload must decode to
exactly 32 bytes (`try_into::<[u8; 32]>`). -/
def decode_ticket (ticket : List Char) : Option (List Nat × Option EndpointId) :=
  match split_once ticket '|' with
  | some (topic_hex, node_id_str) =>
      match hexDecode topic_hex with
      | some bytes =>
          if bytes.length = 32 then some (bytes, EndpointId.from_str node_id_str)
          else none
      | none => none
  | none =>
      match hexDecode ticket with
      | some bytes => if bytes.length = 32 then some (bytes, none) else none
      | none => none

/-! ## NodeMasterClient (sidecar/src/nodemaster_client.rs)

The connection loop is driven by a script: each epoch is either a failed
`connect_async` or a successful connection together with the sequence of
select outcomes observed during it. Wire frames actually transmitted, events
sent to the owner, and backoff sleeps are collected in a trace. -/

def INITIAL_BACKOFF_MS : Nat := 2000

def MAX_BACKOFF_MS : Nat := 30000

def MAX_RECONNECT_ATTEMPTS : Nat := 10

inductive NMClientMessage where
  | Register (ticket node_id : String)
  | Leave
  | Ping
deriving DecidableEq, Repr

inductive NMServerMessage where
  | Peers (node_ids : List String)
  | PeerJoined (node_id : String)
  | PeerLeft (node_id : String)
  | Pong
  | Error (message : String)
deriving DecidableEq, Repr

inductive NodeMasterEvent where
  | PeerList (ids : List String)
  | PeerJoined (id : String)
  | PeerLeft (id : String)
  | Error (msg : String)
  | Disconnected
  | Reconnecting
  | Reconnected
deriving DecidableEq, Repr

structure RegistrationInfo where
  ticket : Option String
  node_id : Option String
deriving DecidableEq, Repr

inductive DisconnectReason where
  | Leave
  | Error (e : String)
  | ServerClosed
deriving DecidableEq, Repr

/-- One resolution of the `tokio::select!` in `process_messages`: the owner's
next command, or the next item on the websocket stream. Outbound sends and
the owner-facing event channel are assumed not to fail (the owner keeps its
receiver open). -/
inductive SessionInput where
  | cmd (c : NMClientMessage)
  | text (m : NMServerMessage)
  | garbage
  | closeFrame
  | transportError (e : String)
  | streamEnd
deriving DecidableEq, Repr

structure SessionResult where
  sent : List NMClientMessage
  events : List NodeMasterEvent
  registration : RegistrationInfo
  reason : Option DisconnectReason
deriving DecidableEq, Repr

/-- `NodeMasterClient::process_messages` over a finite script of select
outcomes. `reason = none` means the script ended with the session still live
(observation cut short). On a `Leave` command the source serializes the frame
and builds the send future but never awaits it
(`let _ = serde_json::to_string(&cmd).map(|json| ws_sender.send(..))`), so no
`Leave` frame is transmitted before the function returns. -/
def process_messages : List SessionInput → RegistrationInfo → SessionResult
  | [], reg => ⟨[], [], reg, none⟩
  | input :: rest, reg =>
      match input with
      | .cmd c =>
          let reg2 :=
            match c with
            | .Register t n => ⟨some t, some n⟩
            | _ => reg
          match c with
          | .Leave => ⟨[], [], reg2, some .Leave⟩
          | c2 =>
              let r := process_messages rest reg2
              ⟨c2 :: r.sent, r.events, r.registration, r.reason⟩
      | .text m =>
          match m with
          | .Pong => process_messages rest reg
          | .Peers ids =>
              let r := process_messages rest reg
              ⟨r.sent, .PeerList ids :: r.events, r.registration, r.reason⟩
          | .PeerJoined nid =>
              let r := process_messages rest reg
              ⟨r.sent, .PeerJoined nid :: r.events, r.registration, r.reason⟩
          | .PeerLeft nid =>
              let r := process_messages rest reg
              ⟨r.sent, .PeerLeft nid :: r.events, r.registration, r.reason⟩
          | .Error msg =>
              let r := process_messages rest reg
              ⟨r.sent, .Error msg :: r.events, r.registration, r.reason⟩
      | .garbage => process_messages rest reg
      | .closeFrame => ⟨[], [], reg, some .ServerClosed⟩
      | .transportError e => ⟨[], [], reg, some (.Error e)⟩
      | .streamEnd => ⟨[], [], reg, some .ServerClosed⟩

inductive ConnectAttempt where
  | fail
  | success (inputs : List SessionInput)
deriving DecidableEq, Repr

structure LoopTrace where
  sent : List NMClientMessage
  events : List NodeMasterEvent
  sleeps : List Nat
deriving DecidableEq, Repr

/-- `NodeMasterClient::connection_loop`. On a successful connect the source
resets `backoff_ms` and `attempt` to their initial values BEFORE testing
`if attempt > 0`, so the `Reconnected` notification branch is unreachable;
the shadowing below mirrors that order faithfully. On a `Leave` disconnect it
emits `Disconnected` and stops; on any other disconnect or connect failure it
increments the attempt counter, gives up with a terminal `Error` event once
the counter exceeds `MAX_RECONNECT_ATTEMPTS`, and otherwise emits
`Reconnecting`, sleeps for the current backoff, doubles the backoff up to
`MAX_BACKOFF_MS` and retries. -/
def connection_loop_go : List ConnectAttempt → Nat → Nat → RegistrationInfo → LoopTrace
  | [], _, _, _ => ⟨[], [], []⟩
  | .fail :: rest, backoff_ms, attempt, reg =>
      let attempt2 := attempt + 1
      if attempt2 > MAX_RECONNECT_ATTEMPTS then
        ⟨[], [NodeMasterEvent.Error "Max reconnect attempts reached"], []⟩
      else
        let t := connection_loop_go rest (min (backoff_ms * 2) MAX_BACKOFF_MS) attempt2 reg
        ⟨t.sent, NodeMasterEvent.Reconnecting :: t.events, backoff_ms :: t.sleeps⟩
  | .success inputs :: rest, _, _, reg =>
      let backoff_ms := INITIAL_BACKOFF_MS
      let attempt := 0
      let preEvents := if attempt > 0 then [NodeMasterEvent.Reconnected] else []
      let replay : List NMClientMessage :=
        match reg.ticket, reg.node_id with
        | some t, some n => [NMClientMessage.Register t n]
        | _, _ => []
      let r := process_messages inputs reg
      match r.reason with
      | some .Leave =>
          ⟨replay ++ r.sent, preEvents ++ r.events ++ [NodeMasterEvent.Disconnected], []⟩
      | none => ⟨replay ++ r.sent, preEvents ++ r.events, []⟩
      | some _ =>
          let attempt2 := attempt + 1
          if attempt2 > MAX_RECONNECT_ATTEMPTS then
            ⟨replay ++ r.sent,
             preEvents ++ r.events ++ [NodeMasterEvent.Error "Max reconnect attempts reached"],
             []⟩
          else
            let t := connection_loop_go rest (min (backoff_ms * 2) MAX_BACKOFF_MS)
              attempt2 r.registration
            ⟨replay ++ r.sent ++ t.sent,
             preEvents ++ r.events ++ NodeMasterEvent.Reconnecting :: t.events,
             backoff_ms :: t.sleeps⟩

def connection_loop (script : List ConnectAttempt) : LoopTrace :=
  connection_loop_go script INITIAL_BACKOFF_MS 0 ⟨none, none⟩

/-! ## BridgeSession (sidecar/src/server.rs, `handle_connection`)

Per-connection mutable state and the `ClientMessage::LeaveRoom` arm. Gossip
senders, task handles and discovery clients are opaque and modelled as
`Nat`. -/

/-- Bridge wire protocol, server to client (sidecar/src/protocol.rs). -/
inductive ServerMessage where
  | TicketCreated (ticket : String)
  | NodeId (id : String)
  | JoinedRoom (ticket : String)
  | InvalidTicket (ticket reason : String)
  | PeerJoined (peer_id : String)
  | PeerLeft (peer_id : String)
  | RemoteSkinUpdate (peer_id : String) (skin_id champion_id : Nat)
      (skin_name : String) (is_custom : Bool)
  | SyncConfirmed (peer_id : String)
  | Error (message : String)
  | Log (level message : String)
  | LeftRoom
deriving DecidableEq, Repr

structure BridgeState where
  current_topic_sender : Option Nat
  current_topic : Option (List Nat)
  current_receiver_task : Option Nat
  nodemaster_event_task : Option Nat
  nodemaster_client : Option Nat
deriving DecidableEq, Repr

inductive BridgeEffect where
  | nmLeave (client : Nat)
  | abortTask (task : Nat)
deriving DecidableEq, Repr

/-- The `ClientMessage::LeaveRoom` arm of `handle_connection`: tell the
discovery client to leave and drop it, abort the gossip receiver task, abort
the discovery event task, clear the topic sender and topic, reply
`LeftRoom`. Returns (new state, side effects, replies). -/
def handle_leave_room (s : BridgeState) :
    BridgeState × List BridgeEffect × List ServerMessage :=
  let eff1 : List BridgeEffect :=
    match s.nodemaster_client with
    | some c => [.nmLeave c]
    | none => []
  let s1 := { s with nodemaster_client := none }
  let eff2 : List BridgeEffect :=
    match s1.current_receiver_task with
    | some h => [.abortTask h]
    | none => []
  let s2 := { s1 with current_receiver_task := none }
  let eff3 : List BridgeEffect :=
    match s2.nodemaster_event_task with
    | some h => [.abortTask h]
    | none => []
  let s3 := { s2 with nodemaster_event_task := none }
  let s4 := { s3 with current_topic_sender := none, current_topic := none }
  (s4, eff1 ++ eff2 ++ eff3, [ServerMessage.LeftRoom])

theorem hexDecode_no_pipe :
    ∀ (l : List Char) (bs : List Nat), hexDecode l = some bs → '|' ∉ l := by
  intro l
  induction l using hexDecode.induct with
  | case1 =>
      intro bs h
      simp
  | case2 c =>
      intro bs h
      simp [hexDecode] at h
  | case3 c1 c2 rest ih =>
      intro bs h
      simp only [hexDecode, Option.bind_eq_bind, Option.bind_eq_some] at h
      obtain ⟨hi, hhi, lo, hlo, bs2, hbs2, hres⟩ := h
      intro hmem
      simp only [List.mem_cons] at hmem
      rcases hmem with hm | hm | hm
      · rw [← hm] at hhi
        rw [show hexDigit '|' = none from by decide] at hhi
        cases hhi
      · rw [← hm] at hlo
        rw [show hexDigit '|' = none from by decide] at hlo
        cases hlo
      · exact ih bs2 hbs2 hm

theorem split_once_of_not_mem {l : List Char} {sep : Char} (h : sep ∉ l) :
    split_once l sep = none := by
  induction l with
  | nil => simp [split_once]
  | cons c rest ih =>
      simp only [List.mem_cons] at h
      push_neg at h
      simp [split_once, Ne.symm h.1, ih h.2]

theorem split_once_append {l1 l2 : List Char} {sep : Char} (h : sep ∉ l1) :
    split_once (l1 ++ sep :: l2) sep = some (l1, l2) := by
  induction l1 with
  | nil => simp [split_once]
  | cons c rest ih =>
      simp only [List.mem_cons] at h
      push_neg at h
      simp [split_once, Ne.symm h.1, ih h.2]

/-- Claim C5 (amended): on `"<hex>|<id>"` with a hex payload decoding to
exactly 32 bytes, `decode_ticket` returns the decoded topic bytes and, as
bootstrap identity, the result of parsing `<id>` with
`EndpointId::from_str(..).ok()` — `some` when `<id>` is a valid endpoint id,
`none` otherwise (decoding still succeeds); a bare hex payload decoding to 32
bytes yields the same topic bytes and no bootstrap identity; decoding fails
whenever the hex payload is not valid hex or does not decode to exactly 32
bytes. -/
theorem claim5_decode_ticket_behaviour :
    (∀ (hexPart idPart : List Char) (bs : List Nat),
        hexDecode hexPart = some bs → bs.length = 32 →
        decode_ticket (hexPart ++ '|' :: idPart)
          = some (bs, EndpointId.from_str idPart)) ∧
    (∀ (t : List Char) (bs : List Nat),
        hexDecode t = some bs → bs.length = 32 →
        decode_ticket t = some (bs, none)) ∧
    (∀ (hexPart idPart : List Char),
        '|' ∉ hexPart →
        (∀ bs, hexDecode hexPart = some bs → bs.length ≠ 32) →
        decode_ticket (hexPart ++ '|' :: idPart) = none) ∧
    (∀ (t : List Char),
        '|' ∉ t →
        (∀ bs, hexDecode t = some bs → bs.length ≠ 32) →
        decode_ticket t = none) := by
  refine ⟨?_, ?_, ?_, ?_⟩
  · intro hexPart idPart bs h hlen
    have hp : '|' ∉ hexPart := hexDecode_no_pipe hexPart bs h
    simp [decode_ticket, split_once_append hp, h, hlen]
  · intro t bs h hlen
    have hp : '|' ∉ t := hexDecode_no_pipe t bs h
    simp [decode_ticket, split_once_of_not_mem hp, h, hlen]
  · intro hexPart idPart hp hne
    cases hd : hexDecode hexPart with
    | none => simp [decode_ticket, split_once_append hp, hd]
    | some bs => simp [decode_ticket, split_once_append hp, hd, hne bs hd]
  · intro t hp hne
    cases hd : hexDecode t with
    | none => simp [decode_ticket, split_once_of_not_mem hp, hd]
    | some bs => simp [decode_ticket, split_once_of_not_mem hp, hd, hne bs hd]

/-- Witness for the amended C5 at concrete inputs (64 times the hex digit a
decodes to 32 bytes 0xaa; the string aa is valid hex of the wrong length). -/
theorem claim5_decode_ticket_behaviour_witness :
    decode_ticket (List.replicate 64 'a' ++ '|' :: ['a', 'b', 'c'])
      = some (List.replicate 32 170, EndpointId.from_str ['a', 'b', 'c']) ∧
    decode_ticket (List.replicate 64 'a') = some (List.replicate 32 170, none) ∧
    decode_ticket (['a', 'a'] ++ '|' :: ['a', 'b', 'c']) = none ∧
    decode_ticket ['a', 'a'] = none :=
  ⟨claim5_decode_ticket_behaviour.1 (List.replicate 64 'a') ['a', 'b', 'c']
      (List.replicate 32 170) (by decide) (by decide),
   claim5_decode_ticket_behaviour.2.1 (List.replicate 64 'a')
      (List.replicate 32 170) (by decide) (by decide),
   claim5_decode_ticket_behaviour.2.2.1 ['a', 'a'] ['a', 'b', 'c'] (by decide)
      (fun bs h => by
        rw [show hexDecode ['a', 'a'] = some [170] from by decide] at h
        cases h
        decide),
   claim5_decode_ticket_behaviour.2.2.2 ['a', 'a'] (by decide)
      (fun bs h => by
        rw [show hexDecode ['a', 'a'] = some [170] from by decide] at h
        cases h
        decide)⟩

/-- Claim C5 counterexample: decoding 64 hex chars, a pipe, and the identity
abc yields the topic bytes but NO bootstrap identity — abc is not a valid
endpoint id, and `EndpointId::from_str(..).ok()` silently degrades it to
`None` — whereas the claim promises bootstrap identity abc. -/
theorem claim5_counterexample_bootstrap_identity_dropped :
    decode_ticket (List.replicate 64 'a' ++ '|' :: ['a', 'b', 'c'])
      = some (List.replicate 32 170, none) ∧
    EndpointId.from_str ['a', 'b', 'c'] = none := by
  decide

theorem process_messages_no_reconnected
    (inputs : List SessionInput) (reg : RegistrationInfo) :
    NodeMasterEvent.Reconnected ∉ (process_messages inputs reg).events := by
  induction inputs generalizing reg with
  | nil => simp [process_messages]
  | cons input rest ih =>
      cases input with
      | cmd c =>
          cases c with
          | Register t n =>
              simpa [process_messages] using ih ⟨some t, some n⟩
          | Leave => simp [process_messages]
          | Ping => simpa [process_messages] using ih reg
      | text m =>
          cases m with
          | Peers ids => simpa [process_messages] using ih reg
          | PeerJoined nid => simpa [process_messages] using ih reg
          | PeerLeft nid => simpa [process_messages] using ih reg
          | Pong => simpa [process_messages] using ih reg
          | Error msg => simpa [process_messages] using ih reg
      | garbage => simpa [process_messages] using ih reg
      | closeFrame => simp [process_messages]
      | transportError e => simp [process_messages]
      | streamEnd => simp [process_messages]

theorem connection_loop_go_no_reconnected
    (script : List ConnectAttempt) (b a : Nat) (reg : RegistrationInfo) :
    NodeMasterEvent.Reconnected ∉ (connection_loop_go script b a reg).events := by
  induction script generalizing b a reg with
  | nil => simp [connection_loop_go]
  | cons e rest ih =>
      cases e with
      | fail =>
          by_cases h : a + 1 > MAX_RECONNECT_ATTEMPTS
          · simp [connection_loop_go, h]
          · simp only [connection_loop_go, if_neg h]
            simp [ih]
      | success inputs =>
          cases hr : (process_messages inputs reg).reason with
          | none =>
              simp only [connection_loop_go, hr]
              simp [process_messages_no_reconnected inputs reg]
          | some dr =>
              cases dr with
              | Leave =>
                  simp only [connection_loop_go, hr]
                  simp [process_messages_no_reconnected inputs reg]
              | Error e2 =>
                  simp only [connection_loop_go, hr]
                  simp [MAX_RECONNECT_ATTEMPTS,
                    process_messages_no_reconnected inputs reg, ih]
              | ServerClosed =>
                  simp only [connection_loop_go, hr]
                  simp [MAX_RECONNECT_ATTEMPTS,
                    process_messages_no_reconnected inputs reg, ih]

/-- Claim C1: in no execution does the client emit `Reconnected` — the source
resets the attempt counter to 0 before testing `if attempt > 0`, so the
notification branch is dead — in particular not in an execution whose connect
fails once and then succeeds, where the claim (and the code's own comment)
requires a `Reconnected` event. -/
theorem claim1_reconnected_is_never_emitted :
    (∀ script : List ConnectAttempt,
        NodeMasterEvent.Reconnected ∉ (connection_loop script).events) ∧
    (connection_loop [.fail, .success [.cmd .Leave]]).events
      = [NodeMasterEvent.Reconnecting, NodeMasterEvent.Disconnected] :=
  ⟨fun script => connection_loop_go_no_reconnected script _ _ _, by decide⟩

/-- Claim C2: on an owner `Leave` command the connected client terminates
with a `Disconnected` event and no reconnect attempt (no sleep, no further
event), but it transmits NO wire frame at all — the source builds the send
future for the serialized `Leave` frame without awaiting it, so the `Leave`
message never reaches the server, contrary to the claim. -/
theorem claim2_leave_frame_never_transmitted :
    (connection_loop [.success [.cmd .Leave]]).sent = [] ∧
    (connection_loop [.success [.cmd .Leave]]).events
      = [NodeMasterEvent.Disconnected] ∧
    (connection_loop [.success [.cmd .Leave]]).sleeps = [] := by
  decide

/-- Claim C6: with 11 consecutive connect failures the client emits ten
`Reconnecting` events followed by exactly one terminal `Error` event and
nothing after it, and the backoff sleeps are 2000, 4000, 8000, 16000 and then
30000 milliseconds for each remaining retry (doubling, capped at 30000). -/
theorem claim6_terminal_error_and_backoff_sequence :
    (connection_loop (List.replicate 11 .fail)).events
      = List.replicate 10 NodeMasterEvent.Reconnecting
        ++ [NodeMasterEvent.Error "Max reconnect attempts reached"] ∧
    (connection_loop (List.replicate 11 .fail)).sleeps
      = [2000, 4000, 8000, 16000] ++ List.replicate 6 30000 ∧
    ((connection_loop (List.replicate 11 .fail)).events.countP
        (fun e => match e with
          | NodeMasterEvent.Error _ => true
          | _ => false)) = 1 := by
  decide

/-- Claim C10: a `LeaveRoom` on a session that is in no room — no discovery
client, no forwarding tasks, no active topic or sender — performs no side
effect, changes nothing in the session state, and replies exactly
`LeftRoom` (in particular no `Error` event). -/
theorem claim10_leave_room_when_not_in_room (s : BridgeState)
    (h1 : s.nodemaster_client = none)
    (h2 : s.current_receiver_task = none)
    (h3 : s.nodemaster_event_task = none)
    (h4 : s.current_topic_sender = none)
    (h5 : s.current_topic = none) :
    handle_leave_room s = (s, [], [ServerMessage.LeftRoom]) := by
  cases s
  simp_all [handle_leave_room]

/-- Witness for C10 at the concrete empty session state. -/
theorem claim10_leave_room_when_not_in_room_witness :
    handle_leave_room ⟨none, none, none, none, none⟩
      = (⟨none, none, none, none, none⟩, [], [ServerMessage.LeftRoom]) :=
  claim10_leave_room_when_not_in_room ⟨none, none, none, none, none⟩
    rfl rfl rfl rfl rfl

end Sidecar

end Rose
